import Mathlib

/-!
# Verification of the Nl80211 information-elements formatter

Shallow embedding of `informationElementsToStream` and
`nl80211_pattern_supportToStream` from
`automotive/can/1.0/default/libnl++/protocols/generic/families/Nl80211.cpp`.

Byte buffers are modelled as `List Nat` (each element one byte).  The
formatter loop is embedded as a fuel-indexed structural recursion
(`ieLoopFuel`), driven with fuel equal to the buffer length (`ieLoop`),
which is always sufficient because every loop iteration consumes at least
two bytes or stops.  Besides the rendered entries, the embedding records
the byte offsets the C++ code reads (`reads`) and the number of loop-body
iterations (`iters`), so that bounds-safety and termination claims can be
stated about the program.
-/

namespace Nl80211

/-- Output of one run of the information-elements loop: the rendered
entries (in order), the byte offsets read from the buffer (relative to the
start of the view the loop runs over), and the number of times the loop
body was entered. -/
structure IEOut where
  entries : List String
  reads : List Nat
  iters : Nat
deriving Repr, DecidableEq

/-- Modelled from the spec: the repository's `crc16` helper lives in
`protocols/common.cpp`, which is not part of the excerpt; the spec
describes it as a deterministic, order-dependent 16-bit checksum
(e.g. CRC-16).  One step of the reflected CRC-16 with polynomial 0xA001. -/
def crc16Step (crc : Nat) : Nat :=
  if crc % 2 = 1 then (crc / 2) ^^^ 0xA001 else crc / 2

/-- Modelled from the spec: fold one byte into the CRC-16 state
(xor the byte in, then eight polynomial-division steps). -/
def crc16Byte (crc b : Nat) : Nat :=
  (List.range 8).foldl (fun c _ => crc16Step c) (crc ^^^ (b % 256))

/-- Modelled from the spec: CRC-16 of a byte buffer, initial value 0. -/
def crc16 (bytes : List Nat) : Nat := bytes.foldl crc16Byte 0

/-- Modelled from the spec: the repository's `printableOnly` helper lives
in `protocols/common.cpp`, which is not part of the excerpt; the spec says
the sanitizer replaces or drops bytes outside the printable ASCII subset
and leaves printable ASCII untouched.  Printable bytes (0x20..0x7e) are
kept, all others are replaced. -/
def printableOnly (bytes : List Nat) : String :=
  String.mk (bytes.map fun b => if 0x20 ≤ b ∧ b ≤ 0x7e then Char.ofNat b else '?')

/-- `std::hex << std::setw(4)` rendering of a 16-bit value: lowercase hex
digits without leading zeros, left-padded with spaces to width 4. -/
def hex4 (n : Nat) : String :=
  let s := String.mk (Nat.toDigits 16 n)
  String.mk (List.replicate (4 - s.length) ' ' ++ s.data)

/-- Compile-time flag from Nl80211.cpp: "Reduce verbosity of printed
Information Elements." (`static constexpr bool kCompactIE = true`). -/
def kCompactIE : Bool := true

/-- The entry text the loop renders for an SSID element
(`ss << "SSID=\"" << printableOnly(ssid) << '"'`). -/
def ssidEntry (payload : List Nat) : String :=
  "SSID=\"" ++ printableOnly payload ++ "\""

/-- The entry text the loop renders for a non-SSID element when
`kCompactIE` is off (`ss << (int)ieHeader.elementId << ':' <<
(int)ieHeader.length << '/' << std::hex << std::setw(4) << crc16(data)`). -/
def ieSummaryEntry (elementId len : Nat) (payload : List Nat) : String :=
  toString elementId ++ ":" ++ toString len ++ "/" ++ hex4 (crc16 payload)

/-- The loop of `informationElementsToStream`, embedded as a fuel-indexed
structural recursion over the unconsumed suffix of the byte buffer.
Mirrors the C++ body:

* fewer than `sizeof(IEHeader) = 2` bytes remaining: silent `break`
  (the body is entered, so one iteration is counted, unless the suffix is
  already empty, in which case the `offset < bytes.len()` loop condition
  fails and the body is not entered);
* `sizeof(IEHeader) + ieHeader.length > remainingLen`: render `"ERR"` and
  `break` (only the two header bytes were read);
* otherwise slice the payload, render the element according to its ID and
  `kCompactIE`, and continue after `sizeof(IEHeader) + ieHeader.length`
  bytes.

The `reads` component records which relative offsets the C++ code reads:
the two header bytes via `memcpy`, and the payload bytes when they are
fed to the `std::string` constructor (SSID branch) or to `crc16`
(non-compact summary branch). -/
def ieLoopFuel (compact : Bool) : Nat → List Nat → IEOut
  | 0, _ => ⟨[], [], 0⟩
  | _ + 1, [] => ⟨[], [], 0⟩
  | _ + 1, [_] => ⟨[], [], 1⟩
  | fuel + 1, b0 :: b1 :: rest =>
    if rest.length < b1 then ⟨["ERR"], [0, 1], 1⟩
    else
      let payload := rest.take b1
      let tail := ieLoopFuel compact fuel (rest.drop b1)
      if b0 = 0 then
        ⟨ssidEntry payload :: tail.entries,
         [0, 1] ++ (List.range b1).map (2 + ·) ++ tail.reads.map (2 + b1 + ·),
         tail.iters + 1⟩
      else if compact then
        ⟨tail.entries, [0, 1] ++ tail.reads.map (2 + b1 + ·), tail.iters + 1⟩
      else
        ⟨ieSummaryEntry b0 b1 payload :: tail.entries,
         [0, 1] ++ (List.range b1).map (2 + ·) ++ tail.reads.map (2 + b1 + ·),
         tail.iters + 1⟩

/-- The information-elements loop over a whole buffer.  Fuel
`bytes.length` is always sufficient (each iteration that recurses consumes
at least two bytes). -/
def ieLoop (compact : Bool) (bytes : List Nat) : IEOut :=
  ieLoopFuel compact bytes.length bytes

/-- Text written before the loop: `'{'` is modelled separately in
`informationElementsToStream`; in compact mode the stream summary
`"len=" << bytes.len() << ", " << "crc=" << hex << setw(4) << crc16(alldata)
<< ", "` is emitted unconditionally. -/
def iePrologue (compact : Bool) (bytes : List Nat) : String :=
  if compact then
    "len=" ++ toString bytes.length ++ ", crc=" ++ hex4 (crc16 bytes) ++ ", "
  else ""

/-- `informationElementsToStream`: the text appended to the stream for one
information-elements attribute.  `'{'`, the compact prologue, the loop
entries joined by `", "` (the `printComma` lambda puts the separator
before every entry but the first), and `'}'`. -/
def informationElementsToStream (compact : Bool) (bytes : List Nat) : String :=
  "\x7b" ++ iePrologue compact bytes
    ++ String.intercalate ", " (ieLoop compact bytes).entries ++ "\x7d"

/-- All byte offsets `informationElementsToStream` reads: in compact mode
the prologue's `crc16(alldata)` reads every byte of the buffer; the loop
reads what `ieLoop` records. -/
def ieReads (compact : Bool) (bytes : List Nat) : List Nat :=
  (if compact then List.range bytes.length else []) ++ (ieLoop compact bytes).reads

/-- The entry a single element (ID, payload) contributes to the output,
if any: SSID elements render as sanitized quoted text, other elements are
skipped in compact mode and summarized as `id:len/crc` otherwise. -/
def ieEntryOf (compact : Bool) (e : Nat × List Nat) : Option String :=
  if e.1 = 0 then some (ssidEntry e.2)
  else if compact then none
  else some (ieSummaryEntry e.1 e.2.length e.2)

/-- Wire encoding of one information element: 1-byte ID, 1-byte length,
then the payload. -/
def encodeIE (e : Nat × List Nat) : List Nat :=
  e.1 :: e.2.length :: e.2

/-- Wire encoding of a sequence of information elements. -/
def encodeIEs : List (Nat × List Nat) → List Nat
  | [] => []
  | e :: es => encodeIE e ++ encodeIEs es

/-- Little-endian 32-bit unsigned read at a byte offset (the `__u32`
fields of `struct nl80211_pattern_support` as laid out in memory). -/
def u32le (bytes : List Nat) (off : Nat) : Nat :=
  bytes.getD off 0 % 256 + 256 * (bytes.getD (off + 1) 0 % 256)
    + 65536 * (bytes.getD (off + 2) 0 % 256)
    + 16777216 * (bytes.getD (off + 3) 0 % 256)

/-- `struct nl80211_pattern_support` (linux/nl80211.h): four `__u32`
fields, 16 bytes total. -/
structure PatternSupport where
  max_patterns : Nat
  min_pattern_len : Nat
  max_pattern_len : Nat
  max_pkt_offset : Nat
deriving Repr, DecidableEq

/-- Decode `struct nl80211_pattern_support` from the first 16 bytes of a
buffer. -/
def readPatternSupport (bytes : List Nat) : PatternSupport :=
  ⟨u32le bytes 0, u32le bytes 4, u32le bytes 8, u32le bytes 12⟩

/-- `nl80211_pattern_supportToStream`.  `attr.data<nl80211_pattern_support>()
.getFirst()` is modelled from the spec: `Buffer<T>::getFirst` (buffer.h is
not part of the excerpt) fails, reading nothing, iff fewer bytes than the
fixed layout's 16 remain; on failure the formatter appends exactly
`"invalid structure"`, otherwise it renders the four fields in
declaration order inside braces, separated by commas.  The second
component records the byte offsets read. -/
def nl80211_pattern_supportToStream (bytes : List Nat) : String × List Nat :=
  if bytes.length < 16 then ("invalid structure", [])
  else
    let d := readPatternSupport bytes
    ("\x7b" ++ toString d.max_patterns ++ "," ++ toString d.min_pattern_len ++ ","
       ++ toString d.max_pattern_len ++ "," ++ toString d.max_pkt_offset ++ "\x7d",
     List.range 16)

/-! ## Helper lemmas about the fuel-indexed loop -/

/-- Any fuel at least the buffer length gives the same result: the loop
consumes at least two bytes per recursive step, so `bytes.length` fuel is
always sufficient. -/
theorem ieLoopFuel_congr (compact : Bool) :
    ∀ f g rem, rem.length ≤ f → rem.length ≤ g →
      ieLoopFuel compact f rem = ieLoopFuel compact g rem := by
  intro f
  induction f with
  | zero =>
    intro g rem hf _
    have hrem : rem = [] := List.eq_nil_of_length_eq_zero (Nat.le_zero.mp hf)
    subst hrem
    cases g <;> rfl
  | succ f ih =>
    intro g rem hf hg
    match rem with
    | [] => cases g <;> rfl
    | [b] =>
      match g with
      | g' + 1 => rfl
      | 0 => simp at hg
    | b0 :: b1 :: rest =>
      match g with
      | 0 => simp at hg
      | g' + 1 =>
        simp only [List.length_cons] at hf hg
        simp only [ieLoopFuel]
        by_cases hb : rest.length < b1
        · simp [hb]
        · have hfd : (rest.drop b1).length ≤ f := by
            simp only [List.length_drop]; omega
          have hgd : (rest.drop b1).length ≤ g' := by
            simp only [List.length_drop]; omega
          rw [ih g' (rest.drop b1) hfd hgd]

/-- Loop over the empty suffix: the loop condition fails, no iteration. -/
theorem ieLoop_nil (compact : Bool) : ieLoop compact [] = ⟨[], [], 0⟩ := rfl

/-- Loop over a one-byte suffix: the body is entered once and breaks
silently because a full 2-byte header does not fit. -/
theorem ieLoop_one (compact : Bool) (b : Nat) : ieLoop compact [b] = ⟨[], [], 1⟩ := rfl

/-- Loop at an element whose declared length does not fit the remaining
bytes: one `"ERR"` entry, only the two header bytes read, stop. -/
theorem ieLoop_err (compact : Bool) (b0 b1 : Nat) (rest : List Nat)
    (h : rest.length < b1) :
    ieLoop compact (b0 :: b1 :: rest) = ⟨["ERR"], [0, 1], 1⟩ := by
  show ieLoopFuel compact (rest.length + 1 + 1) (b0 :: b1 :: rest) = _
  simp only [ieLoopFuel, if_pos h]

/-- Rewriting the recursive call of one well-formed step back to `ieLoop`. -/
theorem ieLoopFuel_tail_eq (compact : Bool) (b1 : Nat) (rest : List Nat)
    (h : b1 ≤ rest.length) :
    ieLoopFuel compact (rest.length + 1) (rest.drop b1) = ieLoop compact (rest.drop b1) := by
  apply ieLoopFuel_congr compact <;> simp only [List.length_drop] <;> omega

/-- Loop at a well-formed SSID element (ID 0): a sanitized quoted entry is
rendered in both modes, the header and the payload bytes are read, and the
loop continues after the payload. -/
theorem ieLoop_ssid (compact : Bool) (b1 : Nat) (rest : List Nat)
    (h : b1 ≤ rest.length) :
    ieLoop compact (0 :: b1 :: rest) =
      ⟨ssidEntry (rest.take b1) :: (ieLoop compact (rest.drop b1)).entries,
       [0, 1] ++ (List.range b1).map (2 + ·)
         ++ (ieLoop compact (rest.drop b1)).reads.map (2 + b1 + ·),
       (ieLoop compact (rest.drop b1)).iters + 1⟩ := by
  show ieLoopFuel compact (rest.length + 1 + 1) (0 :: b1 :: rest) = _
  simp only [ieLoopFuel, if_neg (Nat.not_lt.mpr h), if_pos rfl, if_true]
  rw [ieLoopFuel_tail_eq compact b1 rest h]

/-- Loop at a well-formed non-SSID element in compact mode: no entry is
rendered, only the header bytes are read, and the loop continues after the
payload. -/
theorem ieLoop_skip (b0 b1 : Nat) (rest : List Nat)
    (h : b1 ≤ rest.length) (hb : b0 ≠ 0) :
    ieLoop true (b0 :: b1 :: rest) =
      ⟨(ieLoop true (rest.drop b1)).entries,
       [0, 1] ++ (ieLoop true (rest.drop b1)).reads.map (2 + b1 + ·),
       (ieLoop true (rest.drop b1)).iters + 1⟩ := by
  show ieLoopFuel true (rest.length + 1 + 1) (b0 :: b1 :: rest) = _
  simp only [ieLoopFuel, if_neg (Nat.not_lt.mpr h), if_neg hb, if_pos rfl, if_true]
  rw [ieLoopFuel_tail_eq true b1 rest h]

/-- Loop at a well-formed non-SSID element in full-detail mode: an
`id:len/crc` summary entry is rendered, the header and payload bytes are
read, and the loop continues after the payload. -/
theorem ieLoop_summary (b0 b1 : Nat) (rest : List Nat)
    (h : b1 ≤ rest.length) (hb : b0 ≠ 0) :
    ieLoop false (b0 :: b1 :: rest) =
      ⟨ieSummaryEntry b0 b1 (rest.take b1) :: (ieLoop false (rest.drop b1)).entries,
       [0, 1] ++ (List.range b1).map (2 + ·)
         ++ (ieLoop false (rest.drop b1)).reads.map (2 + b1 + ·),
       (ieLoop false (rest.drop b1)).iters + 1⟩ := by
  show ieLoopFuel false (rest.length + 1 + 1) (b0 :: b1 :: rest) = _
  simp only [ieLoopFuel, if_neg (Nat.not_lt.mpr h), if_neg hb, if_neg Bool.false_ne_true]
  rw [ieLoopFuel_tail_eq false b1 rest h]

/-- Every byte offset the loop reads lies strictly inside the suffix it
runs over, for any fuel. -/
theorem ieLoopFuel_reads_lt (compact : Bool) :
    ∀ fuel rem, ∀ r ∈ (ieLoopFuel compact fuel rem).reads, r < rem.length := by
  intro fuel
  induction fuel with
  | zero => intro rem r hr; simp [ieLoopFuel] at hr
  | succ f ih =>
    intro rem r hr
    match rem with
    | [] => simp [ieLoopFuel] at hr
    | [b] => simp [ieLoopFuel] at hr
    | b0 :: b1 :: rest =>
      simp only [ieLoopFuel] at hr
      simp only [List.length_cons]
      by_cases hlen : rest.length < b1
      · rw [if_pos hlen] at hr
        simp only [List.mem_cons, List.not_mem_nil, or_false] at hr
        omega
      · rw [if_neg hlen] at hr
        have hpay : ∀ s ∈ (List.range b1).map (2 + ·), s < rest.length + 1 + 1 := by
          intro s hs
          simp only [List.mem_map, List.mem_range] at hs
          omega
        have htail : ∀ s ∈ ((ieLoopFuel compact f (rest.drop b1)).reads).map (2 + b1 + ·),
            s < rest.length + 1 + 1 := by
          intro s hs
          simp only [List.mem_map] at hs
          obtain ⟨r', hr', rfl⟩ := hs
          have := ih (rest.drop b1) r' hr'
          simp only [List.length_drop] at this
          omega
        by_cases hb0 : b0 = 0
        · rw [if_pos hb0] at hr
          simp only [List.cons_append, List.nil_append, List.mem_cons, List.mem_append] at hr
          rcases hr with rfl | rfl | hr | hr
          · omega
          · omega
          · exact hpay r hr
          · exact htail r hr
        · rw [if_neg hb0] at hr
          by_cases hc : compact
          · rw [if_pos hc] at hr
            simp only [List.cons_append, List.nil_append, List.mem_cons] at hr
            rcases hr with rfl | rfl | hr
            · omega
            · omega
            · exact htail r hr
          · rw [if_neg hc] at hr
            simp only [List.cons_append, List.nil_append, List.mem_cons, List.mem_append] at hr
            rcases hr with rfl | rfl | hr | hr
            · omega
            · omega
            · exact hpay r hr
            · exact htail r hr

/-- Twice the number of loop-body iterations never exceeds the suffix
length plus one, for any fuel: every iteration that continues consumes at
least two bytes, and at most one final iteration breaks. -/
theorem ieLoopFuel_iters_le (compact : Bool) :
    ∀ fuel rem, 2 * (ieLoopFuel compact fuel rem).iters ≤ rem.length + 1 := by
  intro fuel
  induction fuel with
  | zero => intro rem; simp [ieLoopFuel]
  | succ f ih =>
    intro rem
    match rem with
    | [] => simp [ieLoopFuel]
    | [b] => simp [ieLoopFuel]
    | b0 :: b1 :: rest =>
      simp only [ieLoopFuel, List.length_cons]
      by_cases hlen : rest.length < b1
      · rw [if_pos hlen]
        show 2 * 1 ≤ rest.length + 1 + 1 + 1
        omega
      · rw [if_neg hlen]
        have htail := ih (rest.drop b1)
        simp only [List.length_drop] at htail
        by_cases hb0 : b0 = 0
        · rw [if_pos hb0]; simp only; omega
        · rw [if_neg hb0]
          by_cases hc : compact
          · rw [if_pos hc]; simp only; omega
          · rw [if_neg hc]; simp only; omega

/-- Running the loop over an encoding of well-formed elements followed by
an arbitrary suffix renders exactly the elements' entries followed by
whatever the loop renders for the suffix: each well-formed element
consumes exactly its header plus its declared payload. -/
theorem ieLoopFuel_encode_entries (compact : Bool) :
    ∀ (elems : List (Nat × List Nat)) (s : List Nat) (fuel : Nat),
      (encodeIEs elems ++ s).length ≤ fuel →
      (ieLoopFuel compact fuel (encodeIEs elems ++ s)).entries
        = elems.filterMap (ieEntryOf compact) ++ (ieLoop compact s).entries := by
  intro elems
  induction elems with
  | nil =>
    intro s fuel hf
    simp only [encodeIEs, List.nil_append, List.filterMap_nil]
    rw [ieLoopFuel_congr compact fuel s.length s hf (Nat.le_refl _)]
    rfl
  | cons e es ih =>
    intro s fuel hf
    obtain ⟨i, p⟩ := e
    simp only [encodeIEs, encodeIE, List.cons_append, List.append_assoc] at hf ⊢
    simp only [List.length_cons, List.length_append] at hf
    match fuel with
    | 0 => omega
    | f + 1 =>
      simp only [ieLoopFuel]
      have hnl : ¬ (p ++ (encodeIEs es ++ s)).length < p.length := by
        simp only [List.length_append]; omega
      rw [if_neg hnl]
      have htake : (p ++ (encodeIEs es ++ s)).take p.length = p := List.take_left p _
      have hdrop : (p ++ (encodeIEs es ++ s)).drop p.length = encodeIEs es ++ s :=
        List.drop_left p _
      have hfe : (encodeIEs es ++ s).length ≤ f := by
        simp only [List.length_append] at hf ⊢; omega
      by_cases hi : i = 0
      · rw [if_pos hi]
        simp only [htake, hdrop, List.filterMap_cons, ieEntryOf, hi, if_pos rfl]
        rw [ih s f hfe]
        rfl
      · rw [if_neg hi]
        by_cases hc : compact
        · rw [if_pos hc]
          rw [hc] at ih
          simp only [hdrop, List.filterMap_cons, ieEntryOf, if_neg hi, hc, if_true]
          rw [ih s f hfe]
        · rw [if_neg hc]
          simp only [htake, hdrop, List.filterMap_cons, ieEntryOf, if_neg hi]
          have hcf : compact = false := Bool.eq_false_iff.mpr hc
          rw [hcf] at ih ⊢
          simp only [Bool.false_eq_true, if_false]
          rw [ih s f hfe]
          rfl

/-- String append acts as list append on the underlying character data. -/
theorem string_data_append (s t : String) : (s ++ t).data = s.data ++ t.data := rfl

/-- The character data of the closing-brace literal. -/
theorem data_rbrace : ("\x7d" : String).data = ['\x7d'] := rfl

/-- The character data of the opening-brace literal. -/
theorem data_lbrace : ("\x7b" : String).data = ['\x7b'] := rfl

/-- Every path through `informationElementsToStream` ends by appending the
closing brace: the last character of the output is always `'\x7d'`. -/
theorem render_last_char (compact : Bool) (bytes : List Nat) :
    (informationElementsToStream compact bytes).data.getLast? = some '\x7d' := by
  show ((("\x7b" ++ iePrologue compact bytes)
      ++ String.intercalate ", " (ieLoop compact bytes).entries) ++ "\x7d").data.getLast?
    = some '\x7d'
  rw [string_data_append, data_rbrace]
  exact List.getLast?_concat _

/-- The output of `informationElementsToStream` always begins with the
opening brace. -/
theorem render_head_char (compact : Bool) (bytes : List Nat) :
    (informationElementsToStream compact bytes).data.head? = some '\x7b' := by
  show ((("\x7b" ++ iePrologue compact bytes)
      ++ String.intercalate ", " (ieLoop compact bytes).entries) ++ "\x7d").data.head?
    = some '\x7b'
  rw [string_data_append, string_data_append, string_data_append, data_lbrace]
  simp only [List.cons_append, List.nil_append, List.head?_cons]

/-! ## Claim theorems -/

/-- C1: for every input byte buffer, however truncated or malformed, the
information-elements formatter reads only byte offsets strictly less than
the buffer's length: every header read is guarded by the remaining-length
check and every payload slice fits in the remaining bytes, so no read past
the supplied extent is possible (and, the embedding being a total
function, a result string is always produced). -/
theorem informationElements_reads_in_bounds (compact : Bool) (bytes : List Nat)
    (r : Nat) (hr : r ∈ ieReads compact bytes) : r < bytes.length := by
  unfold ieReads at hr
  rcases List.mem_append.mp hr with h | h
  · by_cases hc : compact
    · rw [if_pos hc] at h
      exact List.mem_range.mp h
    · rw [if_neg hc] at h
      simp at h
  · exact ieLoopFuel_reads_lt compact bytes.length bytes r h

/-- Witness for C1: offset 0 is read when decoding the buffer `[0, 0]`,
and the theorem places it below the buffer length. -/
theorem informationElements_reads_in_bounds_witness :
    (0 : Nat) ∈ ieReads true [0, 0] ∧ (0 : Nat) < List.length ([0, 0] : List Nat) :=
  ⟨by decide, informationElements_reads_in_bounds true [0, 0] 0 (by decide)⟩

/-- Counterexample for C2 as stated: with the source's compile-time
setting `kCompactIE = true` (verbose-suppressed mode), a non-SSID element
(ID 5, length 0) produces no individual `id:len/crc` summary entry at all
— the loop's entry list is empty. -/
theorem compactIE_no_individual_summary_cex :
    kCompactIE = true ∧ (ieLoop kCompactIE [5, 0]).entries = []
      ∧ ieSummaryEntry 5 0 [] ∉ (ieLoop kCompactIE [5, 0]).entries := by
  decide

/-- C2 (amended): the SSID element is rendered as sanitized quoted text in
both modes; a non-SSID element is omitted from the per-element output in
compact (verbose-suppressed) mode, and summarized individually by its ID,
length, and checksum when full detail is requested (`kCompactIE` off). -/
theorem compactIE_element_rendering (b0 b1 : Nat) (rest : List Nat)
    (h : b1 ≤ rest.length) (hb : b0 ≠ 0) :
    (ieLoop true (0 :: b1 :: rest)).entries
        = ssidEntry (rest.take b1) :: (ieLoop true (rest.drop b1)).entries
      ∧ (ieLoop false (0 :: b1 :: rest)).entries
        = ssidEntry (rest.take b1) :: (ieLoop false (rest.drop b1)).entries
      ∧ (ieLoop true (b0 :: b1 :: rest)).entries = (ieLoop true (rest.drop b1)).entries
      ∧ (ieLoop false (b0 :: b1 :: rest)).entries
        = ieSummaryEntry b0 b1 (rest.take b1) :: (ieLoop false (rest.drop b1)).entries := by
  refine ⟨?_, ?_, ?_, ?_⟩
  · rw [ieLoop_ssid true b1 rest h]
  · rw [ieLoop_ssid false b1 rest h]
  · rw [ieLoop_skip b0 b1 rest h hb]
  · rw [ieLoop_summary b0 b1 rest h hb]

/-- Witness for C2: the amended theorem applied to element ID 5 with an
empty payload. -/
theorem compactIE_element_rendering_witness :
    (ieLoop true [0, 0]).entries
        = ssidEntry (List.take 0 ([] : List Nat)) :: (ieLoop true (List.drop 0 ([] : List Nat))).entries
      ∧ (ieLoop false [0, 0]).entries
        = ssidEntry (List.take 0 ([] : List Nat)) :: (ieLoop false (List.drop 0 ([] : List Nat))).entries
      ∧ (ieLoop true [5, 0]).entries = (ieLoop true (List.drop 0 ([] : List Nat))).entries
      ∧ (ieLoop false [5, 0]).entries
        = ieSummaryEntry 5 0 (List.take 0 ([] : List Nat)) :: (ieLoop false (List.drop 0 ([] : List Nat))).entries :=
  compactIE_element_rendering 5 0 [] (by decide) (by decide)

/-- C3: when the buffer is a sequence of well-formed elements followed by
an element whose declared length exceeds the bytes remaining after its
2-byte header, the formatter renders all entries of the preceding
elements, appends the visible `"ERR"` marker, and stops: nothing follows
the marker, and the (total) function still returns. -/
theorem truncated_element_err_marker (compact : Bool) (elems : List (Nat × List Nat))
    (t0 t1 : Nat) (trest : List Nat) (h : trest.length < t1) :
    (ieLoop compact (encodeIEs elems ++ t0 :: t1 :: trest)).entries
      = elems.filterMap (ieEntryOf compact) ++ ["ERR"] := by
  show (ieLoopFuel compact (encodeIEs elems ++ t0 :: t1 :: trest).length
      (encodeIEs elems ++ t0 :: t1 :: trest)).entries = _
  rw [ieLoopFuel_encode_entries compact elems (t0 :: t1 :: trest) _ (Nat.le_refl _)]
  rw [ieLoop_err compact t0 t1 trest h]

/-- Witness for C3: an SSID element followed by an element claiming 5
payload bytes with none remaining renders the SSID entry and then `ERR`. -/
theorem truncated_element_err_marker_witness :
    (ieLoop true (encodeIEs [(0, [97])] ++ 1 :: 5 :: ([] : List Nat))).entries
        = List.filterMap (ieEntryOf true) [(0, [97])] ++ ["ERR"]
      ∧ (ieLoop true [0, 1, 97, 1, 5]).entries = ["SSID=\"a\"", "ERR"] :=
  ⟨truncated_element_err_marker true [(0, [97])] 1 5 [] (by decide), by decide⟩

set_option maxRecDepth 4000 in
/-- C4: an information-elements payload holding one element with ID
`WLAN_EID_SSID` (0), declared length 4 and payload bytes of the text
`test` renders a group containing the entry SSID="test" (and nothing
else in the entry list). -/
theorem ssid_test_rendering :
    informationElementsToStream kCompactIE [0, 4, 116, 101, 115, 116]
        = "\x7blen=6, crc=38df, SSID=\"test\"\x7d"
      ∧ (ieLoop kCompactIE [0, 4, 116, 101, 115, 116]).entries = ["SSID=\"test\""] := by
  decide

/-- C5: when fewer bytes than the 2-byte element header remain after a
sequence of well-formed elements, the loop stops silently: exactly the
entries of the preceding elements are rendered (no error marker, no entry
for the dangling byte), and the returned group is still closed by the
final brace. -/
theorem partial_header_silent_stop (compact : Bool) (elems : List (Nat × List Nat))
    (rem : List Nat) (h : rem.length ≤ 1) :
    (ieLoop compact (encodeIEs elems ++ rem)).entries = elems.filterMap (ieEntryOf compact)
      ∧ (informationElementsToStream compact (encodeIEs elems ++ rem)).data.getLast?
          = some '\x7d' := by
  refine ⟨?_, render_last_char compact _⟩
  show (ieLoopFuel compact (encodeIEs elems ++ rem).length (encodeIEs elems ++ rem)).entries = _
  rw [ieLoopFuel_encode_entries compact elems rem _ (Nat.le_refl _)]
  match rem with
  | [] => rw [ieLoop_nil]; simp
  | [t] => rw [ieLoop_one]; simp
  | a :: b :: l => simp at h

/-- Witness for C5: an SSID element followed by a single dangling byte
renders only the SSID entry and still closes the group. -/
theorem partial_header_silent_stop_witness :
    (ieLoop true (encodeIEs [(0, [97])] ++ [9])).entries
        = List.filterMap (ieEntryOf true) [(0, [97])]
      ∧ (informationElementsToStream true (encodeIEs [(0, [97])] ++ [9])).data.getLast?
          = some '\x7d' :=
  partial_header_silent_stop true [(0, [97])] [9] (by decide)

/-- C6: for every payload shorter than the 16 bytes of
`nl80211_pattern_support`, the struct formatter appends exactly the text
invalid structure and reads no payload byte; for every payload at least
that long it renders the four fields in declaration order inside braces,
reading exactly the struct's 16 bytes. -/
theorem pattern_support_bounds (bytes : List Nat) :
    (bytes.length < 16 →
      nl80211_pattern_supportToStream bytes = ("invalid structure", []))
    ∧ (16 ≤ bytes.length →
      nl80211_pattern_supportToStream bytes
        = ("\x7b" ++ toString (readPatternSupport bytes).max_patterns ++ ","
            ++ toString (readPatternSupport bytes).min_pattern_len ++ ","
            ++ toString (readPatternSupport bytes).max_pattern_len ++ ","
            ++ toString (readPatternSupport bytes).max_pkt_offset ++ "\x7d",
           List.range 16)) := by
  constructor
  · intro h
    rw [nl80211_pattern_supportToStream, if_pos h]
  · intro h
    rw [nl80211_pattern_supportToStream, if_neg (Nat.not_lt.mpr h)]

/-- Witness for C6: the empty payload renders the invalid-structure
marker; an all-zero 16-byte payload renders the four zero fields. -/
theorem pattern_support_bounds_witness :
    nl80211_pattern_supportToStream [] = ("invalid structure", [])
      ∧ nl80211_pattern_supportToStream (List.replicate 16 0)
          = ("\x7b0,0,0,0\x7d", List.range 16) :=
  ⟨(pattern_support_bounds []).1 (by decide),
   ((pattern_support_bounds (List.replicate 16 0)).2 (by decide)).trans (by decide)⟩

/-- Counterexample for C7 as stated: on the one-byte buffer `[0]` the loop
body runs once (it breaks on the header check), which exceeds half the
buffer length (`1 / 2 = 0`). -/
theorem iteration_half_bound_cex :
    ¬ (ieLoop kCompactIE [0]).iters ≤ List.length ([0] : List Nat) / 2 := by
  decide

/-- C7 (amended): the information-elements loop terminates on every
buffer, and since every non-final iteration advances the offset by
`sizeof(IEHeader) + ieHeader.length` which is at least 2, the number of
loop-body iterations is bounded by half the buffer length rounded up
(`2 * iterations ≤ length + 1`). -/
theorem iteration_count_bound (compact : Bool) (bytes : List Nat) :
    2 * (ieLoop compact bytes).iters ≤ bytes.length + 1 :=
  ieLoopFuel_iters_le compact bytes.length bytes

/-- C8: a zero-length information-elements payload renders successfully as
a group with no entries: in full-detail mode the bare braces, in the
source's compact mode the braces around the stream summary alone. -/
theorem empty_payload_empty_group :
    (ieLoop true ([] : List Nat)).entries = []
      ∧ (ieLoop false ([] : List Nat)).entries = []
      ∧ informationElementsToStream false [] = "\x7b\x7d"
      ∧ informationElementsToStream true [] = "\x7blen=0, crc=   0, \x7d" := by
  decide

/-- C9: the sub-format has a fixed 2-byte header (1-byte element ID, then
1-byte length) and no alignment padding: after a well-formed element at
the head of the suffix, decoding continues exactly `2 + length` bytes
further, with no rounding up. -/
theorem ie_advance_exact (compact : Bool) (b0 b1 : Nat) (rest : List Nat)
    (h : b1 ≤ rest.length) :
    (ieLoop compact (b0 :: b1 :: rest)).entries
      = (ieEntryOf compact (b0, rest.take b1)).toList
        ++ (ieLoop compact ((b0 :: b1 :: rest).drop (2 + b1))).entries := by
  have hdrop : (b0 :: b1 :: rest).drop (2 + b1) = rest.drop b1 := by
    rw [Nat.add_comm]
    rfl
  rw [hdrop]
  by_cases hb0 : b0 = 0
  · subst hb0
    rw [ieLoop_ssid compact b1 rest h]
    simp [ieEntryOf, ssidEntry]
  · by_cases hc : compact
    · subst hc
      rw [ieLoop_skip b0 b1 rest h hb0]
      simp [ieEntryOf, hb0]
    · have hcf : compact = false := Bool.eq_false_iff.mpr hc
      subst hcf
      rw [ieLoop_summary b0 b1 rest h hb0]
      simp [ieEntryOf, hb0, ieSummaryEntry, List.length_take, Nat.min_eq_left h]

/-- Witness for C9: a well-formed element of ID 7 and length 1 is followed
by decoding at exactly offset 3. -/
theorem ie_advance_exact_witness :
    (ieLoop false [7, 1, 3, 4]).entries
      = (ieEntryOf false (7, List.take 1 [3, 4])).toList
        ++ (ieLoop false (List.drop (2 + 1) [7, 1, 3, 4])).entries :=
  ie_advance_exact false 7 1 [3, 4] (by decide)

/-- C10: for every input buffer the text appended by
`informationElementsToStream` starts with the opening brace and ends with
the closing brace — every loop exit path (silent break, ERR break, normal
exhaustion) still reaches the closing brace, so the output is one closed
bracketed group of at least two characters. -/
theorem render_braced_group (compact : Bool) (bytes : List Nat) :
    (informationElementsToStream compact bytes).data.head? = some '\x7b'
      ∧ (informationElementsToStream compact bytes).data.getLast? = some '\x7d'
      ∧ 2 ≤ (informationElementsToStream compact bytes).data.length := by
  refine ⟨render_head_char compact bytes, render_last_char compact bytes, ?_⟩
  show 2 ≤ ((("\x7b" ++ iePrologue compact bytes)
      ++ String.intercalate ", " (ieLoop compact bytes).entries) ++ "\x7d").data.length
  rw [string_data_append, string_data_append, string_data_append, data_lbrace, data_rbrace]
  simp only [List.length_append, List.length_cons, List.length_nil]
  omega

end Nl80211
